import Mathlib

/-!
Shallow embedding of the algorithmic core of the PyScripts repository
(`GeneralNuclear/BasicNuclearCalcs.py` and `GeneralNuclear/Counting.py`),
together with theorems settling the frozen claims about it.

Python floats are modelled by real numbers (`ℝ`) where transcendental
functions (`exp`, `sqrt`, `Γ`) occur, and by rationals (`ℚ`) or integers
(`ℤ`) where the code only performs field/integer arithmetic, so that the
corresponding definitions stay executable.  `scipy.integrate.quad` (an
adaptive numerical integrator) is not embeddable exactly; where a claim
depends on code surrounding such a call, the integral's value enters the
embedding as an abstract function argument and the surrounding control
flow is embedded faithfully.
-/

open scoped Classical

namespace PyScripts

/-! ## BasicNuclearCalcs.py -/

/-- `get_decay_const(halfLife)` (BasicNuclearCalcs.py line 112): `log(2)/halfLife`. -/
noncomputable def get_decay_const (halfLife : ℝ) : ℝ := Real.log 2 / halfLife

/-- `decay(halfLife, n, t, units='uCi')` (BasicNuclearCalcs.py lines 89-97):
unit conversion (`uCi` and `Ci` are scaled to Bq, anything else — including
unknown strings — is left unchanged) followed by exponential decay
`n * exp(-get_decay_const(halfLife) * t)`. -/
noncomputable def decay (halfLife n t : ℝ) (units : String := "uCi") : ℝ :=
  let n := if units = "uCi" then n * 1e-6 * 3.7e10
           else if units = "Ci" then n * 3.7e10
           else n
  n * Real.exp (-(get_decay_const halfLife) * t)

/-- The three `assert` statements guarding `decay` (lines 85-87); `none`
models an `AssertionError` escaping, `some` a normal return. -/
noncomputable def decayChecked (halfLife n t : ℝ) (units : String := "uCi") : Option ℝ :=
  if 0 < halfLife ∧ 0 ≤ n ∧ 0 ≤ t then some (decay halfLife n t units) else none

/-- `decay` prints its unknown-units warning (lines 93-95) exactly when the
units string is none of the four recognised ones. -/
def decayWarning (units : String) : Bool :=
  !(units == "uCi") && !(units == "Ci") && !(units == "Bq") && !(units == "atoms")

/-! ## Counting.py: `ge_peakcounts` -/

/-- `ge_peakcounts(p1, p3, p4, p5)` (Counting.py lines 377-382):
`t1 = p1*p3*(2*pi)**0.5`, `t2 = p3*p4*(gamma(p5)*gamma(4-p5))/6`;
returns `t1` when `t2 > t1`, else `t1 + t2`. -/
noncomputable def ge_peakcounts (p1 p3 p4 p5 : ℝ) : ℝ :=
  let t1 := p1 * p3 * Real.sqrt (2 * Real.pi)
  let t2 := p3 * p4 * (Real.Gamma p5 * Real.Gamma (4 - p5)) / 6
  if t1 < t2 then t1 else t1 + t2

/-! ## Counting.py: `get_peak_windows` -/

/-- Lower edge of a window (Counting.py lines 480-484 and 493-497): shrink
toward the previous peak when it is closer than `maxWindow + peakWidth`. -/
def loSide (c prev maxW pw minW : ℤ) : ℤ :=
  if c - maxW < prev + pw then c - max (c - pw - prev) minW else c - maxW

/-- Upper edge of a window (Counting.py lines 471-475 and 485-490): shrink
toward the next peak when it is closer than `maxWindow + peakWidth`. -/
def hiSide (c next maxW pw minW : ℤ) : ℤ :=
  if c + maxW > next - pw then c + max (next - pw - c) minW else c + maxW

/-- The window assigned to the peak at index `i` by `get_peak_windows`
(Counting.py lines 466-499).  The four `if` blocks of the source run in
sequence and later assignments overwrite earlier ones, so the final value
is: the `i == len(ch)-1` block when `i` is the last index (it assigns both
edges, using `ch[i-1]`, which in Python is `ch[-1] = ch[i]` itself for a
one-element list — truncated `ℕ` subtraction in `ch.getD (i-1) 0` yields
that same element, matching Python), else the middle block, else the
`i == 0` block. -/
def windowAt (ch : List ℤ) (maxW pw minW : ℤ) (i : ℕ) : ℤ × ℤ :=
  let c := ch.getD i 0
  if i = ch.length - 1 then
    (loSide c (ch.getD (i - 1) 0) maxW pw minW, c + maxW)
  else if i ≠ 0 then
    (loSide c (ch.getD (i - 1) 0) maxW pw minW, hiSide c (ch.getD (i + 1) 0) maxW pw minW)
  else
    (c - maxW, hiSide c (ch.getD (i + 1) 0) maxW pw minW)

/-- `get_peak_windows(ch, maxWindow=100, peakWidth=15, minWindow=20)`
(Counting.py lines 446-499): one `(peak, (low, high))` entry per peak. -/
def get_peak_windows (ch : List ℤ) (maxW : ℤ := 100) (pw : ℤ := 15) (minW : ℤ := 20) :
    List (ℤ × ℤ × ℤ) :=
  (List.range ch.length).map (fun i => (ch.getD i 0, windowAt ch maxW pw minW i))

/-! ## Counting.py: `foil_count_time`

`foil_count_time(sigma, halfLife, init, efficiency, background=0.001,
units="atoms", precision=30)` (lines 561-638) is embedded in pieces: its
`assert` validation gate, its fixed-point loop, the Knoll update formula
with Python's division-by-zero semantics made explicit, and the
post-loop `tb` computation with the `tf == np.inf` patch-up. -/

/-- The validation gate of `foil_count_time` (lines 590-597): the five
`assert` statements, as a decidable check over `ℚ`.  Note the source only
bounds `sigma` and `efficiency` from above. -/
def foilCountTimeChecks (sigma halfLife init efficiency background : ℚ) : Bool :=
  decide (sigma ≤ 1) && decide (0 < halfLife) && decide (0 ≤ init) &&
  decide (efficiency ≤ 1) && decide (0 ≤ background)

/-- The same validation gate (lines 590-597) as a proposition over `ℝ`,
used as a hypothesis by claims about the code after the gate. -/
def FoilCountTimeValid (sigma halfLife init efficiency background : ℝ) : Prop :=
  sigma ≤ 1 ∧ 0 < halfLife ∧ 0 ≤ init ∧ efficiency ≤ 1 ∧ 0 ≤ background

/-- The two kinds of runtime error the body of `foil_count_time` can
raise: `ZeroDivisionError` (caught by the `except` at line 637) and
`ValueError` from `math.sqrt` of a negative number (NOT caught — it
propagates to the caller). -/
inductive PyErr
  | zeroDiv
  | valueError
  deriving DecidableEq

/-- Python division: raises `ZeroDivisionError` on a zero divisor,
otherwise returns the quotient. -/
noncomputable def pdivR (a b : ℝ) : Except PyErr ℝ :=
  if b = 0 then .error .zeroDiv else .ok (a / b)

/-- `math.sqrt`: raises `ValueError` on a negative argument, otherwise
returns the square root. -/
noncomputable def psqrt (x : ℝ) : Except PyErr ℝ :=
  if x < 0 then .error .valueError else .ok (Real.sqrt x)

/-- One Knoll update (lines 630-631):
`tf = ((sqrt(s+bg)+sqrt(bg))**2/(sigma**2*s**2)) / (1+1/sqrt((s+bg)/bg))`,
with every Python operation made explicit in left-to-right evaluation
order: `sqrt(s+bg)` first (a negative `s+bg` — reachable, since the
validation gate admits negative efficiencies and hence a negative average
rate `s` — raises `ValueError` here), then `sqrt(bg)`, then the division
by `sigma**2*s**2`, then `(s+bg)/bg`, its square root, and the final
divisions, each division raising `ZeroDivisionError` on a zero
divisor. -/
noncomputable def knollUpdate (sigma bg s : ℝ) : Except PyErr ℝ :=
  match psqrt (s + bg) with
  | .error e => .error e
  | .ok t1 =>
    match psqrt bg with
    | .error e => .error e
    | .ok t2 =>
      match pdivR ((t1 + t2) ^ 2) (sigma ^ 2 * s ^ 2) with
      | .error e => .error e
      | .ok a =>
        match pdivR (s + bg) bg with
        | .error e => .error e
        | .ok r =>
          match psqrt r with
          | .error e => .error e
          | .ok t3 =>
            match pdivR 1 t3 with
            | .error e => .error e
            | .ok den => pdivR a (1 + den)

/-- The fixed-point loop of `foil_count_time` over `ℚ` with the update
abstracted as `F` (lines 624-632): `tf = 1; diff = 1000;
while diff > precision: prevt = tf; tf = F(tf); diff = tf - prevt`.
The `diff` the loop tests is the SIGNED difference.  `none` means the
iteration budget `fuel` ran out with the loop still running; `some tf`
is the value of `tf` when the loop exits. -/
def fctLoop (F : ℚ → ℚ) (precision : ℚ) : ℕ → ℚ → ℚ → Option ℚ
  | 0, _, _ => none
  | fuel + 1, tf, diff =>
      if precision < diff then fctLoop F precision fuel (F tf) (F tf - tf)
      else some tf

/-- The loop with its initial values `tf = 1`, `diff = 1000` (lines 624-625). -/
def foilCountTimeLoop (F : ℚ → ℚ) (precision : ℚ) (fuel : ℕ) : Option ℚ :=
  fctLoop F precision fuel 1 1000

/-- The fixed-point loop over `ℝ` with the Knoll update in place
(lines 626-632).  `sAvg tf` abstracts `quad(integrand, 0, tf)[0]/tf`, the
average count rate scipy computes numerically.  The accumulator carries
the `s` of the last executed iteration (`none` when no iteration has run,
i.e. Python's name `s` is still unbound). -/
noncomputable def fctIterR (sAvg : ℝ → ℝ) (sigma bg precision : ℝ) :
    ℕ → ℝ → ℝ → Option ℝ → Except PyErr (Option (ℝ × Option ℝ))
  | 0, _, _, _ => .ok none
  | fuel + 1, tf, diff, lastS =>
      if precision < diff then
        match knollUpdate sigma bg (sAvg tf) with
        | .error e => .error e
        | .ok tf2 => fctIterR sAvg sigma bg precision fuel tf2 (tf2 - tf) (some (sAvg tf))
      else .ok (some (tf, lastS))

/-- Outcome of `foil_count_time` after the validation gate:
a returned pair `(tf, tb)`; an uncaught exception escaping (`raised`, the
`ValueError` of `math.sqrt` on a negative argument, which the `except` at
line 637 does not catch); a `NameError` escaping (the loop never ran, so
Python's `s` is unbound at line 633 — also not caught); or still running
at the iteration budget. -/
inductive FctOutcome
  | result (tf tb : ℝ)
  | raised
  | nameError
  | running

/-- `tb = tf/sqrt((s+background)/background)` at line 633, operation by
operation: the inner division, `math.sqrt`, and the outer division. -/
noncomputable def tbCalc (tf s bg : ℝ) : Except PyErr ℝ :=
  match pdivR (s + bg) bg with
  | .error e => .error e
  | .ok r =>
    match psqrt r with
    | .error e => .error e
    | .ok sq => pdivR tf sq

/-- `foil_count_time` after validation (lines 624-638): run the loop from
`tf = 1`, `diff = 1000`; a `ZeroDivisionError` anywhere inside the `try`
(loop or `tb` computation) returns the sentinel `(1e99, 1e99)`, while a
`ValueError` from `math.sqrt` propagates out (`raised`); otherwise return
`(tf, tb)`.  The `if tf == np.inf` patch-up at line 634 is vacuous in
this real-valued model, where no float overflow to `inf` exists (it is
modelled separately, see `PyFloat`). -/
noncomputable def foilCountTimeR (sAvg : ℝ → ℝ) (sigma bg precision : ℝ) (fuel : ℕ) :
    FctOutcome :=
  match fctIterR sAvg sigma bg precision fuel 1 1000 none with
  | .error .zeroDiv => .result (10 ^ 99) (10 ^ 99)
  | .error .valueError => .raised
  | .ok none => .running
  | .ok (some (_, none)) => .nameError
  | .ok (some (tf, some s)) =>
      match tbCalc tf s bg with
      | .error .zeroDiv => .result (10 ^ 99) (10 ^ 99)
      | .error .valueError => .raised
      | .ok tb => .result tf tb

/-- A Python float value reachable at the end of `foil_count_time`'s loop:
finite, or `inf` (float overflow of the diverging trial duration `tf`).
Rationals stand in for the finite floats. -/
inductive PyFloat
  | fin (q : ℚ)
  | inf
  deriving DecidableEq

/-- `tb = tf/c` at line 633, where `c` stands for the already-computed
finite value `sqrt((s+background)/background) ≥ 0`: Python raises
`ZeroDivisionError` on `c = 0`, and `inf` divided by a positive finite
float is `inf`. -/
def finishDiv (tf : PyFloat) (c : ℚ) : Except Unit PyFloat :=
  if c = 0 then .error ()
  else
    match tf with
    | .fin a => .ok (.fin (a / c))
    | .inf => .ok .inf

/-- Lines 633-638 of `foil_count_time`: compute `tb`; if `tf == np.inf`
replace `tf` (and only `tf`) by `1e99`; return `(tf, tb)`; a
`ZeroDivisionError` instead returns the sentinel `(1e99, 1e99)`. -/
def foilCountTimeFinish (tf : PyFloat) (c : ℚ) : PyFloat × PyFloat :=
  match finishDiv tf c with
  | .error _ => (.fin (10 ^ 99), .fin (10 ^ 99))
  | .ok tb => ((if tf = .inf then .fin (10 ^ 99) else tf), tb)

/-! ## Counting.py: `optimal_count_plan` -/

/-- One reaction channel row of the input table of `optimal_count_plan`
(its required columns, lines 659-662). -/
structure RxChannel where
  foil : ℕ
  gammaEnergy : ℝ
  halfLife : ℝ
  initActivity : ℝ
  activityUncert : ℝ
  det2FoilDist : ℝ
  relStat : ℝ
  foilR : ℝ

/-- The mutable working columns of a candidate schedule's table copy
(lines 718-721): `countTime`, `countActivity`, `countActUncert`. -/
structure RxState where
  countActivity : ℝ
  countActUncert : ℝ
  countTime : ℝ

/-- The working copy at the start of a candidate schedule (lines 717-721):
`countTime = 0.0`, working activities cloned from the input columns. -/
def initSchedState (tbl : List RxChannel) : List (RxChannel × RxState) :=
  tbl.map (fun c => (c, ⟨c.initActivity, c.activityUncert, 0⟩))

/-- Processing one foil group `f` (lines 725-791).  `fct c act unc`
abstracts the per-channel count time the source obtains from
`foil_count_time(relStat, halfLife, act - 3*unc, absEff, background,
units='Bq')[0]` (rounded up to a minute when `toMinute` is set) — it is
numeric code built on `scipy.integrate.quad` and the channel's efficiency
fit, both outside the embeddable fragment.  The group's count time `ct` is
the running maximum, starting at `0`, of the channels' individual times
(lines 726, 771-772); every channel of the group then gets `countTime = ct`
(lines 780-781); finally every channel still having `countTime == 0.0` has
its working activity and uncertainty decayed by `ct + handleTime`
(lines 784-791, `decay(..., units='Bq')`). -/
noncomputable def stepFoil (fct : RxChannel → ℝ → ℝ → ℝ) (handleTime : ℝ) (f : ℕ)
    (tbl : List (RxChannel × RxState)) : ℝ × List (RxChannel × RxState) :=
  let ct := (((tbl.filter (fun c => c.1.foil = f)).map
      (fun c => fct c.1 c.2.countActivity c.2.countActUncert)).foldl max 0)
  let tbl1 := tbl.map (fun c =>
    if c.1.foil = f then (c.1, { c.2 with countTime := ct }) else c)
  let tbl2 := tbl1.map (fun c =>
    if c.2.countTime = 0 then
      (c.1, { c.2 with
        countActivity := decay c.1.halfLife c.2.countActivity (ct + handleTime) "Bq",
        countActUncert := decay c.1.halfLife c.2.countActUncert (ct + handleTime) "Bq" })
    else c)
  (ct, tbl2)

/-- The accumulated schedule time of one candidate order (lines 724-791):
fold `stepFoil` over the order, adding each group's `ct` to the total. -/
noncomputable def schedAux (fct : RxChannel → ℝ → ℝ → ℝ) (handleTime : ℝ) :
    List ℕ → List (RxChannel × RxState) → ℝ → ℝ
  | [], _, total => total
  | f :: rest, tbl, total =>
      let s := stepFoil fct handleTime f tbl
      schedAux fct handleTime rest s.2 (total + s.1)

/-- `tmpTotal` for one permutation `order` of the foil groups
(lines 716-791), starting from the freshly cloned working copy. -/
noncomputable def schedCost (fct : RxChannel → ℝ → ℝ → ℝ) (handleTime : ℝ)
    (tbl : List RxChannel) (order : List ℕ) : ℝ :=
  schedAux fct handleTime order (initSchedState tbl) 0

/-- All ways to pick one element out of a list together with the remaining
elements, in order — the recursion scheme of `itertools.permutations`. -/
def selections {α : Type} : List α → List (α × List α)
  | [] => []
  | a :: as => (a, as) :: (selections as).map (fun p => (p.1, a :: p.2))

/-- All permutations of a list in the enumeration order of Python's
`itertools.permutations` (line 715): first element varies slowest, chosen
left to right.  `n` is the length of the list, driving the recursion. -/
def permsAux {α : Type} : ℕ → List α → List (List α)
  | 0, _ => [[]]
  | n + 1, l => (selections l).flatMap (fun p => (permsAux n p.2).map (p.1 :: ·))

/-- `list(permutations(...))` at line 715. -/
def permsList {α : Type} (l : List α) : List (List α) := permsAux l.length l

/-- The best-candidate tracking of `optimal_count_plan` (lines 704,
714-716, 793-796): `totalTime` starts at `np.inf` (the `none`
accumulator), and a candidate replaces the incumbent exactly when its
cost is strictly smaller (`tmpTotal < totalTime`, line 794). -/
noncomputable def countPlanLoop {γ : Type} (cost : γ → ℝ) :
    List γ → Option (γ × ℝ) → Option (γ × ℝ)
  | [], best => best
  | o :: rest, best =>
      match best with
      | none => countPlanLoop cost rest (some (o, cost o))
      | some (bo, bt) =>
          if cost o < bt then countPlanLoop cost rest (some (o, cost o))
          else countPlanLoop cost rest (some (bo, bt))

/-- The same loop once an incumbent exists, as a plain fold — the shape
used by the correctness proofs. -/
noncomputable def loopSpec {γ : Type} (cost : γ → ℝ) : List γ → γ × ℝ → γ × ℝ
  | [], b => b
  | o :: rest, b => loopSpec cost rest (if cost o < b.2 then (o, cost o) else b)

/-- `optimal_count_plan`'s search (lines 714-800), specialised to the
quantities the claims are about: enumerate `list(permutations(groups))`,
score each order with `schedCost`, keep the strictly best. -/
noncomputable def optimalCountPlan (fct : RxChannel → ℝ → ℝ → ℝ) (handleTime : ℝ)
    (tbl : List RxChannel) (groups : List ℕ) : Option (List ℕ × ℝ) :=
  countPlanLoop (schedCost fct handleTime tbl) (permsList groups) none

/-- A row of the caller's table, reduced to the two columns
`optimal_count_plan` writes to in place (lines 707-712). -/
structure FoilRow where
  initActivity : ℚ
  activityUncert : ℚ
  deriving DecidableEq

/-- The in-place unit conversion at the top of `optimal_count_plan`
(lines 706-712): for `units == "uCi"` or `"Ci"` the `initActivity` and
`activityUncert` columns of the CALLER'S dataframe are overwritten with
the scaled values; any other units string leaves the table untouched.
This is the argument's state after the call returns. -/
def convertTable (units : String) (tbl : List FoilRow) : List FoilRow :=
  if units = "uCi" then
    tbl.map (fun r => ⟨r.initActivity * 1e-6 * 3.7e10, r.activityUncert * 1e-6 * 3.7e10⟩)
  else if units = "Ci" then
    tbl.map (fun r => ⟨r.initActivity * 3.7e10, r.activityUncert * 3.7e10⟩)
  else tbl

/-! ## Theorems -/

/-- Whenever `fctLoop` returns, either it never iterated (and then the
initial `diff` was already `≤ precision`), or the returned value is the
result of the last update and the last SIGNED difference is `≤ precision`. -/
theorem fctLoop_stop (F : ℚ → ℚ) (p : ℚ) : ∀ (fuel : ℕ) (tf diff tf' : ℚ),
    fctLoop F p fuel tf diff = some tf' →
    (tf' = tf ∧ diff ≤ p) ∨ ∃ t0, tf' = F t0 ∧ tf' - t0 ≤ p := by
  intro fuel
  induction fuel with
  | zero => intro tf diff tf' h; simp [fctLoop] at h
  | succ n ih =>
    intro tf diff tf' h
    rw [fctLoop] at h
    by_cases hc : p < diff
    · rw [if_pos hc] at h
      rcases ih (F tf) (F tf - tf) tf' h with ⟨rfl, hle⟩ | hex
      · exact .inr ⟨tf, rfl, hle⟩
      · exact .inr hex
    · rw [if_neg hc] at h
      exact .inl ⟨(Option.some_injective ℚ h).symm, le_of_not_lt hc⟩

/-- C3 counterexample: `sigma = 0` lies outside the claimed valid range
`(0, 1]`, yet `foil_count_time`'s validation gate accepts it — the
asserts only bound `sigma` from above. -/
theorem claim_C3_cex : foilCountTimeChecks 0 1 0 1 0 = true ∧ ¬(0 < (0 : ℚ)) := by
  refine ⟨?_, by norm_num⟩
  simp only [foilCountTimeChecks, Bool.and_eq_true, decide_eq_true_eq]
  norm_num

/-- C3, amended: the validation gate of `foil_count_time` rejects exactly
when `sigma > 1`, `halfLife ≤ 0`, `init < 0`, `efficiency > 1` or
`background < 0`; there is no lower-bound check on `sigma` or
`efficiency`. -/
theorem claim_C3_validation (s h i e b : ℚ) :
    foilCountTimeChecks s h i e b = false ↔
      1 < s ∨ h ≤ 0 ∨ i < 0 ∨ 1 < e ∨ b < 0 := by
  simp only [foilCountTimeChecks, Bool.and_eq_false_iff, decide_eq_false_iff_not,
    not_le, not_lt]
  tauto

/-- C4 counterexample: when the trial duration has diverged to `inf` and
the background factor is finite (here `1`), the returned pair is
`(1e99, inf)` — the second component is NOT `1e99`. -/
theorem claim_C4_cex :
    foilCountTimeFinish .inf 1 = (.fin (10 ^ 99), .inf) ∧
      (PyFloat.inf ≠ PyFloat.fin (10 ^ 99)) := by
  constructor
  · norm_num [foilCountTimeFinish, finishDiv]
  · simp

/-- C4, amended: a `ZeroDivisionError` in the `tb` computation yields the
sentinel `(1e99, 1e99)`; but when `tf` has diverged to `inf` and the
divisor is nonzero, only the first component is patched to `1e99` — the
function returns `(1e99, inf)` with an infinite second component.  No
exception escapes in either case. -/
theorem claim_C4_sentinel :
    (∀ tf, foilCountTimeFinish tf 0 = (.fin (10 ^ 99), .fin (10 ^ 99))) ∧
    (∀ c : ℚ, c ≠ 0 → foilCountTimeFinish .inf c = (.fin (10 ^ 99), .inf)) ∧
    (∀ (a c : ℚ), c ≠ 0 → foilCountTimeFinish (.fin a) c = (.fin a, .fin (a / c))) := by
  refine ⟨fun tf => ?_, fun c hc => ?_, fun a c hc => ?_⟩
  · simp [foilCountTimeFinish, finishDiv]
  · simp [foilCountTimeFinish, finishDiv, hc]
  · simp [foilCountTimeFinish, finishDiv, hc]

/-- C4 witness: the amended behaviour at the concrete divisor `1`. -/
theorem claim_C4_witness :
    (1 : ℚ) ≠ 0 ∧ foilCountTimeFinish .inf 1 = (.fin (10 ^ 99), .inf) :=
  ⟨by norm_num, claim_C4_sentinel.2.1 1 (by norm_num)⟩

/-- C5 counterexample: with an update that decreases `tf` by `2000` and
the default `precision = 30`, the loop stops immediately after the first
update even though `|tf_new - tf_old| = 2000 ≥ precision`, because the
code tests the signed difference. -/
theorem claim_C5_cex :
    foilCountTimeLoop (fun t => t - 2000) 30 2 = some (-1999) ∧
      ¬(|(-1999 : ℚ) - 1| < 30) := by
  constructor
  · rw [foilCountTimeLoop, show (2 : ℕ) = 1 + 1 from rfl, fctLoop,
      if_pos (by norm_num : (30 : ℚ) < 1000)]
    rw [fctLoop, if_neg (by norm_num : ¬(30 : ℚ) < (fun t : ℚ => t - 2000) 1 - 1)]
    norm_num
  · rw [show (-1999 : ℚ) - 1 = -2000 by norm_num, abs_of_nonpos (by norm_num)]
    norm_num

/-- C5, amended: the loop starts at `tf = 1` (with initial `diff = 1000`)
and keeps iterating exactly while the SIGNED difference
`tf_new - tf_old` exceeds `precision`; whenever it returns, either it
never iterated (possible only when `precision ≥ 1000`) or the last signed
difference was `≤ precision` — so it does stop when `tf` decreases by
more than `precision`. -/
theorem claim_C5_loop_exit :
    (∀ (F : ℚ → ℚ) (p : ℚ) (fuel : ℕ) (tf diff : ℚ), p < diff →
        fctLoop F p (fuel + 1) tf diff = fctLoop F p fuel (F tf) (F tf - tf)) ∧
    (∀ (F : ℚ → ℚ) (p : ℚ) (fuel : ℕ) (tf' : ℚ),
        foilCountTimeLoop F p fuel = some tf' →
        (tf' = 1 ∧ 1000 ≤ p) ∨ ∃ t0, tf' = F t0 ∧ tf' - t0 ≤ p) := by
  constructor
  · intro F p fuel tf diff hd
    rw [fctLoop, if_pos hd]
  · intro F p fuel tf' h
    rcases fctLoop_stop F p fuel 1 1000 tf' h with ⟨rfl, hle⟩ | hex
    · exact .inl ⟨rfl, hle⟩
    · exact .inr hex

/-- C5 witness: the continue-direction of the amended claim at concrete
inputs. -/
theorem claim_C5_witness :
    (30 : ℚ) < 1000 ∧ fctLoop (fun t => t - 2000) 30 1 1 1000
      = fctLoop (fun t => t - 2000) 30 0 (1 - 2000) (1 - 2000 - 1) :=
  ⟨by norm_num, claim_C5_loop_exit.1 (fun t => t - 2000) 30 0 1 1000 (by norm_num)⟩

/-- C6: `ge_peakcounts` returns `t1 + t2` unless the skew contribution
`t2` exceeds the gaussian term `t1`, in which case it returns `t1` alone;
for non-negative amplitude/width/skew-amplitude and skew range in
`(0, 4)` the result lies in `[t1, 2*t1]` and is non-negative. -/
theorem claim_C6_ge_peakcounts (p1 p3 p4 p5 : ℝ)
    (ha : 0 ≤ p1) (hw : 0 ≤ p3) (hs : 0 ≤ p4) (hr : 0 < p5) (hr4 : p5 < 4) :
    (p1 * p3 * Real.sqrt (2 * Real.pi)
        < p3 * p4 * (Real.Gamma p5 * Real.Gamma (4 - p5)) / 6 →
      ge_peakcounts p1 p3 p4 p5 = p1 * p3 * Real.sqrt (2 * Real.pi)) ∧
    (p3 * p4 * (Real.Gamma p5 * Real.Gamma (4 - p5)) / 6
        ≤ p1 * p3 * Real.sqrt (2 * Real.pi) →
      ge_peakcounts p1 p3 p4 p5 = p1 * p3 * Real.sqrt (2 * Real.pi)
        + p3 * p4 * (Real.Gamma p5 * Real.Gamma (4 - p5)) / 6) ∧
    p1 * p3 * Real.sqrt (2 * Real.pi) ≤ ge_peakcounts p1 p3 p4 p5 ∧
    ge_peakcounts p1 p3 p4 p5 ≤ 2 * (p1 * p3 * Real.sqrt (2 * Real.pi)) ∧
    0 ≤ ge_peakcounts p1 p3 p4 p5 := by
  have ht1 : 0 ≤ p1 * p3 * Real.sqrt (2 * Real.pi) :=
    mul_nonneg (mul_nonneg ha hw) (Real.sqrt_nonneg _)
  have hg : 0 ≤ Real.Gamma p5 * Real.Gamma (4 - p5) :=
    le_of_lt (mul_pos (Real.Gamma_pos_of_pos hr) (Real.Gamma_pos_of_pos (by linarith)))
  have ht2 : 0 ≤ p3 * p4 * (Real.Gamma p5 * Real.Gamma (4 - p5)) / 6 :=
    div_nonneg (mul_nonneg (mul_nonneg hw hs) hg) (by norm_num)
  have hgp : ge_peakcounts p1 p3 p4 p5 =
      if p1 * p3 * Real.sqrt (2 * Real.pi)
          < p3 * p4 * (Real.Gamma p5 * Real.Gamma (4 - p5)) / 6
      then p1 * p3 * Real.sqrt (2 * Real.pi)
      else p1 * p3 * Real.sqrt (2 * Real.pi)
        + p3 * p4 * (Real.Gamma p5 * Real.Gamma (4 - p5)) / 6 := rfl
  rw [hgp]
  split_ifs with hc
  · exact ⟨fun _ => rfl, fun hle => absurd hc (not_lt.mpr hle), le_refl _,
      by linarith, ht1⟩
  · exact ⟨fun hlt => absurd hlt hc, fun _ => rfl, by linarith,
      by linarith [not_lt.mp hc], by linarith⟩

/-- C6 witness: the bounds at the concrete parameters
`(p1, p3, p4, p5) = (1, 1, 0, 2)`. -/
theorem claim_C6_witness :
    (0 : ℝ) ≤ 1 ∧ (0 : ℝ) < 2 ∧ (2 : ℝ) < 4 ∧
    (1 * 1 * Real.sqrt (2 * Real.pi) ≤ ge_peakcounts 1 1 0 2 ∧
      ge_peakcounts 1 1 0 2 ≤ 2 * (1 * 1 * Real.sqrt (2 * Real.pi)) ∧
      0 ≤ ge_peakcounts 1 1 0 2) := by
  have h := claim_C6_ge_peakcounts 1 1 0 2 (by norm_num) (by norm_num) (by norm_num)
    (by norm_num) (by norm_num)
  exact ⟨by norm_num, by norm_num, by norm_num, h.2.2⟩

/-- C7 counterexample: the `units` default of `decay` is `'uCi'`
(BasicNuclearCalcs.py line 69), so at `t = 0` the function returns the
µCi→Bq-converted value `37000·n`, not `n`: `decay(1, 1, 0) = 37000`. -/
theorem claim_C7_cex : decay 1 1 0 "uCi" = 37000 ∧ (37000 : ℝ) ≠ 1 := by
  constructor
  · rw [decay]
    rw [if_pos rfl]
    rw [get_decay_const]
    norm_num
  · norm_num

/-- C7, amended: for `halfLife > 0` and `n ≥ 0`, `decay` is non-increasing
in `t` for every units string; at `t = 0` it returns `n` exactly for
`units = 'Bq'` or `'atoms'`, while under the default `units = 'uCi'` it
returns the converted value `37000 * n`. -/
theorem claim_C7_decay_monotone (hl n : ℝ) (hhl : 0 < hl) (hn : 0 ≤ n) :
    (∀ (u : String) (t₁ t₂ : ℝ), 0 ≤ t₁ → t₁ ≤ t₂ →
        decay hl n t₂ u ≤ decay hl n t₁ u) ∧
    decay hl n 0 "Bq" = n ∧ decay hl n 0 "atoms" = n ∧
    decay hl n 0 "uCi" = 37000 * n := by
  have hlam : 0 < Real.log 2 / hl := div_pos (Real.log_pos (by norm_num)) hhl
  constructor
  · intro u t₁ t₂ ht₁ ht
    rw [decay, decay, get_decay_const]
    have hm : 0 ≤ (if u = "uCi" then n * 1e-6 * 3.7e10
        else if u = "Ci" then n * 3.7e10 else n) := by
      split_ifs
      · have h6 : (0 : ℝ) ≤ 1e-6 := by norm_num
        have h10 : (0 : ℝ) ≤ 3.7e10 := by norm_num
        exact mul_nonneg (mul_nonneg hn h6) h10
      · exact mul_nonneg hn (by norm_num)
      · exact hn
    refine mul_le_mul_of_nonneg_left ?_ hm
    exact Real.exp_le_exp.mpr (by nlinarith)
  · refine ⟨?_, ?_, ?_⟩ <;>
    · rw [decay, get_decay_const]
      simp only [String.reduceEq, reduceIte]
      norm_num
      try ring

/-- C7 witness: the amended claim at `halfLife = 1`, `n = 1`. -/
theorem claim_C7_witness :
    (0 : ℝ) < 1 ∧ (0 : ℝ) ≤ 1 ∧
    decay 1 1 1 "Bq" ≤ decay 1 1 0 "Bq" ∧ decay 1 1 0 "Bq" = 1 := by
  have h := claim_C7_decay_monotone 1 1 (by norm_num) (by norm_num)
  exact ⟨by norm_num, by norm_num, h.1 "Bq" 0 1 (by norm_num) (by norm_num), h.2.1⟩

/-- C8: for any units string other than the four recognised ones, `decay`
passes its asserts (under valid physics inputs), performs no conversion —
returning `n·exp(-λt)`, the same value as with `'Bq'` or `'atoms'` — and
its unknown-units warning fires; no exception is raised. -/
theorem claim_C8_unknown_units (hl n t : ℝ) (u : String)
    (hhl : 0 < hl) (hn : 0 ≤ n) (ht : 0 ≤ t)
    (h1 : u ≠ "uCi") (h2 : u ≠ "Ci") (h3 : u ≠ "Bq") (h4 : u ≠ "atoms") :
    decayChecked hl n t u = some (n * Real.exp (-(Real.log 2 / hl) * t)) ∧
    decay hl n t u = decay hl n t "Bq" ∧
    decay hl n t u = decay hl n t "atoms" ∧
    decayWarning u = true := by
  have hval : decay hl n t u = n * Real.exp (-(Real.log 2 / hl) * t) := by
    rw [decay, get_decay_const]
    simp only [if_neg h1, if_neg h2]
  have hbq : decay hl n t "Bq" = n * Real.exp (-(Real.log 2 / hl) * t) := by
    rw [decay, get_decay_const]
    simp only [String.reduceEq, reduceIte]
  have hat : decay hl n t "atoms" = n * Real.exp (-(Real.log 2 / hl) * t) := by
    rw [decay, get_decay_const]
    simp only [String.reduceEq, reduceIte]
  refine ⟨?_, by rw [hval, hbq], by rw [hval, hat], ?_⟩
  · rw [decayChecked, if_pos ⟨hhl, hn, ht⟩, hval]
  · simp only [decayWarning, Bool.and_eq_true, Bool.not_eq_true',
      beq_eq_false_iff_ne]
    exact ⟨⟨⟨h1, h2⟩, h3⟩, h4⟩

/-- C8 witness: the unknown string `"Frogs"` (the one the repo's own test
uses) at `halfLife = 1`, `n = 1`, `t = 0`. -/
theorem claim_C8_witness :
    (0 : ℝ) < 1 ∧ ("Frogs" : String) ≠ "uCi" ∧
    decayChecked 1 1 0 "Frogs" = some (1 * Real.exp (-(Real.log 2 / 1) * 0)) ∧
    decayWarning "Frogs" = true := by
  have h := claim_C8_unknown_units 1 1 0 "Frogs" (by norm_num) (by norm_num)
    (by norm_num) (by decide) (by decide) (by decide) (by decide)
  exact ⟨by norm_num, by decide, h.1, h.2.2.2⟩

/-- C9 counterexample: with `units = "uCi"`, `optimal_count_plan` scales
the caller's `initActivity`/`activityUncert` columns in place: the row
`(1, 1)` is `(37000, 37000)` after the call — the input table is NOT
left unchanged. -/
theorem claim_C9_cex :
    convertTable "uCi" [⟨1, 1⟩] = [⟨37000, 37000⟩] ∧
      ([⟨37000, 37000⟩] : List FoilRow) ≠ [⟨1, 1⟩] := by
  constructor
  · rw [convertTable, if_pos rfl]
    simp only [List.map_cons, List.map_nil, List.cons.injEq, and_true, FoilRow.mk.injEq]
    norm_num
  · simp only [ne_eq, List.cons.injEq, and_true, FoilRow.mk.injEq, not_and]
    norm_num

/-- C9, amended: `optimal_count_plan` leaves the caller's activity columns
unchanged for `units = 'Bq'`, but for `'uCi'` (resp. `'Ci'`) it multiplies
every row's `initActivity` and `activityUncert` in place by `3.7e4`
(resp. `3.7e10`); the per-candidate working copies are separate deep
copies and do not otherwise affect the input. -/
theorem claim_C9_conversion (tbl : List FoilRow) :
    convertTable "Bq" tbl = tbl ∧
    convertTable "uCi" tbl
      = tbl.map (fun r => ⟨37000 * r.initActivity, 37000 * r.activityUncert⟩) ∧
    convertTable "Ci" tbl
      = tbl.map (fun r => ⟨37000000000 * r.initActivity, 37000000000 * r.activityUncert⟩) := by
  refine ⟨?_, ?_, ?_⟩
  · rw [convertTable, if_neg (by decide), if_neg (by decide)]
  · rw [convertTable, if_pos rfl]
    refine List.map_congr_left fun r _ => ?_
    have h1 : r.initActivity * 1e-6 * 3.7e10 = 37000 * r.initActivity := by
      norm_num; ring
    have h2 : r.activityUncert * 1e-6 * 3.7e10 = 37000 * r.activityUncert := by
      norm_num; ring
    rw [h1, h2]
  · rw [convertTable, if_neg (by decide), if_pos rfl]
    refine List.map_congr_left fun r _ => ?_
    have h1 : r.initActivity * 3.7e10 = 37000000000 * r.initActivity := by
      norm_num; ring
    have h2 : r.activityUncert * 3.7e10 = 37000000000 * r.activityUncert := by
      norm_num; ring
    rw [h1, h2]

/-- Both edges produced by `loSide` stay within `[c - maxW, c - minW]`. -/
theorem loSide_bounds (c prev maxW pw minW : ℤ) (hmm : minW ≤ maxW) :
    c - maxW ≤ loSide c prev maxW pw minW ∧ loSide c prev maxW pw minW ≤ c - minW := by
  rw [loSide]
  split_ifs with h <;> omega

/-- Both edges produced by `hiSide` stay within `[c + minW, c + maxW]`. -/
theorem hiSide_bounds (c next maxW pw minW : ℤ) (hmm : minW ≤ maxW) :
    c + minW ≤ hiSide c next maxW pw minW ∧ hiSide c next maxW pw minW ≤ c + maxW := by
  rw [hiSide]
  split_ifs with h <;> omega

/-- When the previous peak is at least `maxW + pw` away, the lower edge is
the full `c - maxW`. -/
theorem loSide_far (c prev maxW pw minW : ℤ) (h : maxW + pw ≤ c - prev) :
    loSide c prev maxW pw minW = c - maxW := by
  rw [loSide, if_neg (by omega)]

/-- When the next peak is at least `maxW + pw` away, the upper edge is the
full `c + maxW`. -/
theorem hiSide_far (c next maxW pw minW : ℤ) (h : maxW + pw ≤ next - c) :
    hiSide c next maxW pw minW = c + maxW := by
  rw [hiSide, if_neg (by omega)]

/-- Every window component of `windowAt` is a `loSide`/`hiSide` value or a
bare `c ∓ maxW`, so the window always sits inside `[c - maxW, c + maxW]`
and leaves at least `minW` on each side of the peak. -/
theorem windowAt_bounds (ch : List ℤ) (maxW pw minW : ℤ) (i : ℕ) (hmm : minW ≤ maxW) :
    (ch.getD i 0 - maxW ≤ (windowAt ch maxW pw minW i).1 ∧
      (windowAt ch maxW pw minW i).1 ≤ ch.getD i 0 - minW) ∧
    (ch.getD i 0 + minW ≤ (windowAt ch maxW pw minW i).2 ∧
      (windowAt ch maxW pw minW i).2 ≤ ch.getD i 0 + maxW) := by
  simp only [windowAt]
  split_ifs with h1 h2
  · exact ⟨loSide_bounds _ _ _ _ _ hmm, by constructor <;> simp <;> omega⟩
  · exact ⟨loSide_bounds _ _ _ _ _ hmm, hiSide_bounds _ _ _ _ _ hmm⟩
  · exact ⟨by constructor <;> simp <;> omega, hiSide_bounds _ _ _ _ _ hmm⟩

/-- C2 counterexample: peaks `[100, 220]` with the default parameters
`maxWindow = 100, peakWidth = 15, minWindow = 20` satisfy every hypothesis
of the claim (strictly increasing, `maxWindow ≥ minWindow > peakWidth >
0`), yet the two returned windows are `(0, 200)` and `(120, 320)`, which
overlap on `(120, 200)` — windows of distinct peaks DO overlap. -/
theorem claim_C2_cex :
    ((20 : ℤ) ≤ 100 ∧ (15 : ℤ) < 20 ∧ (0 : ℤ) < 15 ∧ (100 : ℤ) < 220) ∧
    windowAt [100, 220] 100 15 20 0 = (0, 200) ∧
    windowAt [100, 220] 100 15 20 1 = (120, 320) ∧
    ((windowAt [100, 220] 100 15 20 1).1 < (windowAt [100, 220] 100 15 20 0).2 ∧
      (windowAt [100, 220] 100 15 20 0).1 < (windowAt [100, 220] 100 15 20 1).2) := by
  refine ⟨by norm_num, ?_, ?_, ?_⟩ <;> decide

/-- C2, amended: under the claimed parameter hypotheses every window has
at least `minWindow` on each side of its peak (hence width `≥
2·minWindow`) and is contained in `peak ± maxWindow`; consequently
windows of peaks separated by at least `2·maxWindow` do not overlap
(closer peaks' windows can overlap — see the counterexample); interior
peaks whose two neighbours are farther than `2·maxWindow + peakWidth`
away get exactly `(peak - maxWindow, peak + maxWindow)`, as do the first
and last peaks of a multi-peak list whose single neighbour is that far;
a single-peak list instead gets `(peak - minWindow, peak + maxWindow)`,
because the last-index branch of the source reads `ch[i-1] = ch[-1]`,
the peak itself, and shrinks the lower edge to `minWindow`. -/
theorem claim_C2_windows (ch : List ℤ) (maxW pw minW : ℤ)
    (hinc : ch.Chain' (· < ·)) (hmm : minW ≤ maxW) (hpm : pw < minW) (hpw : 0 < pw) :
    (∀ i, i < ch.length →
      (windowAt ch maxW pw minW i).1 ≤ ch.getD i 0 - minW ∧
      ch.getD i 0 + minW ≤ (windowAt ch maxW pw minW i).2 ∧
      ch.getD i 0 - maxW ≤ (windowAt ch maxW pw minW i).1 ∧
      (windowAt ch maxW pw minW i).2 ≤ ch.getD i 0 + maxW ∧
      2 * minW ≤ (windowAt ch maxW pw minW i).2 - (windowAt ch maxW pw minW i).1) ∧
    (∀ i j, i < ch.length → j < ch.length →
      2 * maxW ≤ ch.getD j 0 - ch.getD i 0 →
      (windowAt ch maxW pw minW i).2 ≤ (windowAt ch maxW pw minW j).1) ∧
    (∀ i, 0 < i → i + 1 < ch.length →
      2 * maxW + pw < ch.getD (i + 1) 0 - ch.getD i 0 →
      2 * maxW + pw < ch.getD i 0 - ch.getD (i - 1) 0 →
      windowAt ch maxW pw minW i = (ch.getD i 0 - maxW, ch.getD i 0 + maxW)) ∧
    (1 < ch.length →
      (2 * maxW + pw < ch.getD 1 0 - ch.getD 0 0 →
        windowAt ch maxW pw minW 0 = (ch.getD 0 0 - maxW, ch.getD 0 0 + maxW)) ∧
      (2 * maxW + pw < ch.getD (ch.length - 1) 0 - ch.getD (ch.length - 2) 0 →
        windowAt ch maxW pw minW (ch.length - 1)
          = (ch.getD (ch.length - 1) 0 - maxW, ch.getD (ch.length - 1) 0 + maxW))) ∧
    (ch.length = 1 →
      windowAt ch maxW pw minW 0 = (ch.getD 0 0 - minW, ch.getD 0 0 + maxW)) := by
  have hmaxpos : 0 < maxW := by omega
  refine ⟨?_, ?_, ?_, ?_, ?_⟩
  · intro i _
    obtain ⟨⟨hb1, hb2⟩, hb3, hb4⟩ := windowAt_bounds ch maxW pw minW i hmm
    exact ⟨hb2, hb3, hb1, hb4, by omega⟩
  · intro i j _ _ hsep
    obtain ⟨_, _, hi2⟩ := windowAt_bounds ch maxW pw minW i hmm
    obtain ⟨⟨hj1, _⟩, _⟩ := windowAt_bounds ch maxW pw minW j hmm
    omega
  · intro i hi0 hilen hnext hprev
    have h1 : ¬(i = ch.length - 1) := by omega
    have h2 : i ≠ 0 := by omega
    simp only [windowAt, if_neg h1, if_pos h2]
    rw [loSide_far _ _ _ _ _ (by omega), hiSide_far _ _ _ _ _ (by omega)]
  · intro hlen
    constructor
    · intro hnext
      have h1 : ¬((0 : ℕ) = ch.length - 1) := by omega
      have h0 : ¬((0 : ℕ) ≠ 0) := by omega
      simp only [windowAt, if_neg h1, if_neg h0]
      rw [show (0 : ℕ) + 1 = 1 from rfl, hiSide_far _ _ _ _ _ (by omega)]
    · intro hprev
      have h2 : ch.length - 1 - 1 = ch.length - 2 := by omega
      simp only [windowAt, h2, eq_self_iff_true, if_true]
      rw [loSide_far _ _ _ _ _ (by omega)]
  · intro hlen
    have h1 : (0 : ℕ) = ch.length - 1 := by omega
    simp only [windowAt, if_pos h1]
    have hprev : ch.getD (0 - 1) 0 = ch.getD 0 0 := rfl
    rw [hprev, loSide, if_pos (by omega)]
    have hmax : max (ch.getD 0 0 - pw - ch.getD 0 0) minW = minW := by omega
    rw [hmax]

/-- C2 witness: two far-apart peaks `[0, 1000]` under the default
parameters get the exact `±maxWindow` windows. -/
theorem claim_C2_witness :
    ((20 : ℤ) ≤ 100 ∧ (15 : ℤ) < 20 ∧ (0 : ℤ) < 15) ∧
    windowAt [0, 1000] 100 15 20 0 = (-100, 100) ∧
    windowAt [0, 1000] 100 15 20 1 = (900, 1100) := by
  have h := claim_C2_windows [0, 1000] 100 15 20
    (by norm_num [List.chain'_cons, List.chain'_singleton]) (by norm_num) (by norm_num)
    (by norm_num)
  obtain ⟨hfirst, hlast⟩ := h.2.2.2.1 (by norm_num)
  refine ⟨by norm_num, ?_, ?_⟩
  · simpa [List.getD] using hfirst (by norm_num [List.getD])
  · simpa [List.getD] using hlast (by norm_num [List.getD])

/-- With a zero background and a non-negative rate `s`, the very first
Knoll update raises `ZeroDivisionError`: either `sigma**2*s**2` is already
zero, or the factor `(s+background)/background` divides by zero. -/
theorem knollUpdate_bg_zero (sigma s : ℝ) (hs : 0 ≤ s) :
    knollUpdate sigma 0 s = .error .zeroDiv := by
  have h1 : psqrt (s + 0) = .ok (Real.sqrt (s + 0)) := by
    rw [psqrt, if_neg (by linarith)]
  have h2 : psqrt (0 : ℝ) = .ok (Real.sqrt 0) := by
    rw [psqrt, if_neg (by norm_num)]
  rw [knollUpdate, h1, h2]
  by_cases h : sigma ^ 2 * s ^ 2 = 0
  · simp [pdivR, h]
  · simp [pdivR, h]

/-- C10 counterexample: `efficiency = -1` passes the validation gate
(only `efficiency <= 1` is checked), and with a positive activity the
average rate `s` is then negative, so with `background = 0` the very
first update evaluates `math.sqrt(s + background)` of a negative number
at line 630: a `ValueError` escapes — the `except` at line 637 only
catches `ZeroDivisionError` — and the function raises instead of
returning the sentinel pair. -/
theorem claim_C10_cex :
    FoilCountTimeValid 1 1 1 (-1) 0 ∧
    foilCountTimeR (fun _ => -1) 1 0 30 1 = .raised ∧
    FctOutcome.raised ≠ .result (10 ^ 99) (10 ^ 99) := by
  refine ⟨⟨le_refl 1, by norm_num, by norm_num, by norm_num, le_refl 0⟩, ?_, by simp⟩
  have hk : knollUpdate 1 0 (-1 : ℝ) = .error .valueError := by
    rw [knollUpdate, psqrt, if_pos (by norm_num)]
  have hit : fctIterR (fun _ => (-1 : ℝ)) 1 0 30 1 1 1000 none = .error .valueError := by
    rw [show (1 : ℕ) = 0 + 1 from rfl, fctIterR,
      if_pos (by norm_num : (30 : ℝ) < 1000),
      show knollUpdate 1 0 ((fun _ => (-1 : ℝ)) 1) = .error .valueError from hk]
  rw [foilCountTimeR, hit]

/-- C10, amended: any input that passes the validation gate with
`background = 0` AND a non-negative average count rate — as holds
whenever `efficiency ≥ 0`, since the decaying activity is non-negative —
makes `foil_count_time` return the sentinel `(1e99, 1e99)`: the first
iteration's division by zero is caught and mapped to the sentinel, for
any `sigma`, and any `precision` below the initial `diff = 1000` (which
includes the default `precision = 30`).  Validation also admits negative
efficiencies, and for the resulting negative rate the function instead
raises an uncaught `ValueError` — see the counterexample. -/
theorem claim_C10_zero_background (sAvg : ℝ → ℝ) (sigma hl init eff precision : ℝ)
    (fuel : ℕ) (hv : FoilCountTimeValid sigma hl init eff 0) (hs : 0 ≤ sAvg 1)
    (hp : precision < 1000) (hf : 1 ≤ fuel) :
    foilCountTimeR sAvg sigma 0 precision fuel = .result (10 ^ 99) (10 ^ 99) := by
  obtain ⟨k, rfl⟩ : ∃ k, fuel = k + 1 := ⟨fuel - 1, by omega⟩
  have h1 : fctIterR sAvg sigma 0 precision (k + 1) 1 1000 none = .error .zeroDiv := by
    rw [fctIterR, if_pos hp, knollUpdate_bg_zero sigma (sAvg 1) hs]
  rw [foilCountTimeR, h1]

/-- C10 witness: the sentinel at concrete valid parameters with zero
background and zero rate. -/
theorem claim_C10_witness :
    FoilCountTimeValid 1 1 0 1 0 ∧ (0 : ℝ) ≤ 0 ∧ (0 : ℝ) < 1000 ∧ (1 : ℕ) ≤ 1 ∧
    foilCountTimeR (fun _ => 0) 1 0 0 1 = .result (10 ^ 99) (10 ^ 99) := by
  have hv : FoilCountTimeValid 1 1 0 1 0 :=
    ⟨le_refl 1, by norm_num, le_refl 0, le_refl 1, le_refl 0⟩
  exact ⟨hv, le_refl 0, by norm_num, le_refl 1,
    claim_C10_zero_background (fun _ => 0) 1 1 0 1 0 1 hv (le_refl 0) (by norm_num)
      (le_refl 1)⟩

/-- Running the best-candidate loop with an incumbent is the plain fold
`loopSpec`. -/
theorem countPlanLoop_some {γ : Type} (cost : γ → ℝ) :
    ∀ (ps : List γ) (b : γ × ℝ),
      countPlanLoop cost ps (some b) = some (loopSpec cost ps b) := by
  intro ps
  induction ps with
  | nil => intro b; rfl
  | cons o rest ih =>
    intro b
    obtain ⟨bo, bt⟩ := b
    simp only [countPlanLoop, loopSpec]
    by_cases hc : cost o < bt
    · rw [if_pos hc, if_pos hc, ih]
    · rw [if_neg hc, if_neg hc, ih]

/-- Invariant of the strict-`<` fold: either the incumbent survives and
undercuts every candidate, or the result is the FIRST candidate attaining
the running minimum — candidates before it cost strictly more, candidates
after it cost at least as much. -/
theorem loopSpec_spec {γ : Type} (cost : γ → ℝ) :
    ∀ (ps : List γ) (b : γ × ℝ),
      (loopSpec cost ps b = b ∧ ∀ q ∈ ps, b.2 ≤ cost q) ∨
      (∃ l₁ l₂, ps = l₁ ++ (loopSpec cost ps b).1 :: l₂ ∧
        cost (loopSpec cost ps b).1 = (loopSpec cost ps b).2 ∧
        (loopSpec cost ps b).2 < b.2 ∧
        (∀ q ∈ l₁, (loopSpec cost ps b).2 < cost q) ∧
        (∀ q ∈ l₂, (loopSpec cost ps b).2 ≤ cost q)) := by
  intro ps
  induction ps with
  | nil =>
    intro b
    exact .inl ⟨rfl, fun q hq => absurd hq (List.not_mem_nil q)⟩
  | cons o rest ih =>
    intro b
    by_cases hc : cost o < b.2
    · have hst : loopSpec cost (o :: rest) b = loopSpec cost rest (o, cost o) := by
        rw [loopSpec, if_pos hc]
      rcases ih (o, cost o) with ⟨heq, hall⟩ | ⟨l₁, l₂, hsplit, hcost, hlt, hl₁, hl₂⟩
      · refine .inr ⟨[], rest, ?_, ?_, ?_, ?_, ?_⟩
        · rw [hst, heq]; rfl
        · rw [hst, heq]
        · rw [hst, heq]; exact hc
        · intro q hq; exact absurd hq (List.not_mem_nil q)
        · intro q hq; rw [hst, heq]; exact hall q hq
      · refine .inr ⟨o :: l₁, l₂, ?_, ?_, ?_, ?_, ?_⟩
        · rw [hst, List.cons_append]; exact congrArg (List.cons o) hsplit
        · rw [hst]; exact hcost
        · rw [hst]; exact lt_trans hlt hc
        · intro q hq
          rw [hst]
          rcases List.mem_cons.mp hq with rfl | hq'
          · exact hlt
          · exact hl₁ q hq'
        · intro q hq; rw [hst]; exact hl₂ q hq
    · have hst : loopSpec cost (o :: rest) b = loopSpec cost rest b := by
        rw [loopSpec, if_neg hc]
      rcases ih b with ⟨heq, hall⟩ | ⟨l₁, l₂, hsplit, hcost, hlt, hl₁, hl₂⟩
      · refine .inl ⟨by rw [hst, heq], ?_⟩
        intro q hq
        rcases List.mem_cons.mp hq with rfl | hq'
        · exact le_of_not_lt hc
        · exact hall q hq'
      · refine .inr ⟨o :: l₁, l₂, ?_, ?_, ?_, ?_, ?_⟩
        · rw [hst, List.cons_append]; exact congrArg (List.cons o) hsplit
        · rw [hst]; exact hcost
        · rw [hst]; exact hlt
        · intro q hq
          rw [hst]
          rcases List.mem_cons.mp hq with rfl | hq'
          · exact lt_of_lt_of_le hlt (le_of_not_lt hc)
          · exact hl₁ q hq'
        · intro q hq; rw [hst]; exact hl₂ q hq

/-- Picking the first occurrence of a member is one of the selections. -/
theorem selections_mem {α : Type} [DecidableEq α] :
    ∀ (l : List α) (a : α), a ∈ l → (a, l.erase a) ∈ selections l := by
  intro l
  induction l with
  | nil => intro a h; exact absurd h (List.not_mem_nil a)
  | cons b bs ih =>
    intro a h
    by_cases hab : a = b
    · subst hab
      rw [selections, List.erase_cons_head]
      exact List.mem_cons_self _ _
    · have hmem : a ∈ bs := by
        rcases List.mem_cons.mp h with h1 | h1
        · exact absurd h1 hab
        · exact h1
      have herase : (b :: bs).erase a = b :: bs.erase a :=
        List.erase_cons_tail (by simpa using fun h' => hab h'.symm)
      rw [selections, herase]
      exact List.mem_cons_of_mem _ (List.mem_map.mpr ⟨(a, bs.erase a), ih a hmem, rfl⟩)

/-- Each selection drops exactly one element. -/
theorem selections_length {α : Type} :
    ∀ (l : List α) (p : α × List α), p ∈ selections l → p.2.length + 1 = l.length := by
  intro l
  induction l with
  | nil => intro p h; exact absurd h (List.not_mem_nil p)
  | cons b bs ih =>
    intro p h
    rcases List.mem_cons.mp h with rfl | h1
    · simp
    · rcases List.mem_map.mp h1 with ⟨q, hq, rfl⟩
      have := ih q hq
      simp only [List.length_cons]
      omega

/-- Every rearrangement of `l` occurs in the `itertools`-style enumeration
of its permutations. -/
theorem perm_mem_permsAux {α : Type} [DecidableEq α] :
    ∀ (n : ℕ) (l q : List α), n = l.length → q.Perm l → q ∈ permsAux n l := by
  intro n
  induction n with
  | zero =>
    intro l q hn hq
    have hl : l = [] := List.length_eq_zero.mp hn.symm
    subst hl
    have hq' : q = [] := hq.eq_nil
    subst hq'
    simp [permsAux]
  | succ n ih =>
    intro l q hn hq
    cases q with
    | nil =>
      exfalso
      have hlen := hq.length_eq
      simp only [List.length_nil] at hlen
      omega
    | cons a q' =>
      have ha : a ∈ l := hq.subset (List.mem_cons_self a q')
      have hq' : q'.Perm (l.erase a) := (List.cons_perm_iff_perm_erase.mp hq).2
      have hlen : n = (l.erase a).length := by
        have h1 := List.length_erase_of_mem ha
        omega
      have hmem := ih (l.erase a) q' hlen hq'
      rw [permsAux]
      exact List.mem_flatMap.mpr
        ⟨(a, l.erase a), selections_mem l a ha, List.mem_map.mpr ⟨q', hmem, rfl⟩⟩

/-- C1: `optimal_count_plan`'s search returns a best order and total time
such that the total time is the minimum of the accumulated schedule cost
`schedCost` (group count time = running max over the group's channels,
not-yet-counted channels decayed by `ct + handleTime` between groups) over
ALL permutations of the foil groups, and the returned order is the first
permutation in `itertools.permutations` enumeration order attaining that
minimum — every earlier permutation costs strictly more, because the
`tmpTotal < totalTime` comparison is strict.  The statement holds for
every input table, every per-channel count-time function `fct` (the
`foil_count_time`-based inner computation) and every handling time. -/
theorem claim_C1_optimal_count_plan (fct : RxChannel → ℝ → ℝ → ℝ) (handleTime : ℝ)
    (tbl : List RxChannel) (gs : List ℕ) :
    ∃ bo t, optimalCountPlan fct handleTime tbl gs = some (bo, t) ∧
      schedCost fct handleTime tbl bo = t ∧
      (∀ q, q.Perm gs → t ≤ schedCost fct handleTime tbl q) ∧
      ∃ l₁ l₂, permsList gs = l₁ ++ bo :: l₂ ∧
        ∀ q ∈ l₁, t < schedCost fct handleTime tbl q := by
  have hself : gs ∈ permsList gs :=
    perm_mem_permsAux gs.length gs gs rfl (List.Perm.refl gs)
  obtain ⟨p, ps, hpp⟩ : ∃ p ps, permsList gs = p :: ps := by
    cases hl : permsList gs with
    | nil => rw [hl] at hself; exact absurd hself (List.not_mem_nil gs)
    | cons p ps => exact ⟨p, ps, rfl⟩
  obtain ⟨bo, t, hR⟩ : ∃ bo t, loopSpec (schedCost fct handleTime tbl) ps
      (p, schedCost fct handleTime tbl p) = (bo, t) := ⟨_, _, rfl⟩
  have hloop : optimalCountPlan fct handleTime tbl gs = some (bo, t) := by
    rw [optimalCountPlan, hpp,
      show countPlanLoop (schedCost fct handleTime tbl) (p :: ps) none
          = countPlanLoop (schedCost fct handleTime tbl) ps
              (some (p, schedCost fct handleTime tbl p)) from rfl,
      countPlanLoop_some, hR]
  rcases loopSpec_spec (schedCost fct handleTime tbl) ps
      (p, schedCost fct handleTime tbl p) with
    ⟨heq, hall⟩ | ⟨l₁, l₂, hsplit, hcost, hlt, hl₁, hl₂⟩
  · rw [hR] at heq
    injection heq with hbo ht
    subst hbo
    subst ht
    refine ⟨bo, schedCost fct handleTime tbl bo, hloop, rfl, ?_, [], ps,
      by rw [hpp, List.nil_append], ?_⟩
    · intro q hq
      have hqmem : q ∈ permsList gs := perm_mem_permsAux gs.length gs q rfl hq
      rw [hpp] at hqmem
      rcases List.mem_cons.mp hqmem with rfl | hq'
      · exact le_rfl
      · exact hall q hq'
    · intro q hq; exact absurd hq (List.not_mem_nil q)
  · rw [hR] at hsplit hcost hlt hl₁ hl₂
    dsimp only at hsplit hcost hlt hl₁ hl₂
    refine ⟨bo, t, hloop, hcost, ?_, p :: l₁, l₂, ?_, ?_⟩
    · intro q hq
      have hqmem : q ∈ permsList gs := perm_mem_permsAux gs.length gs q rfl hq
      rw [hpp] at hqmem
      rcases List.mem_cons.mp hqmem with rfl | hq'
      · exact le_of_lt hlt
      · rw [hsplit] at hq'
        rcases List.mem_append.mp hq' with h1 | h1
        · exact le_of_lt (hl₁ q h1)
        · rcases List.mem_cons.mp h1 with rfl | h2
          · exact le_of_eq hcost.symm
          · exact hl₂ q h2
    · rw [hpp, List.cons_append]; exact congrArg (List.cons p) hsplit
    · intro q hq
      rcases List.mem_cons.mp hq with rfl | hq'
      · exact hlt
      · exact hl₁ q hq'

end PyScripts
